import Mathlib

/-!
Shallow embedding of the Formulae binary codec (src/src/lib.rs together with
the tag constants of src/src/node_types.rs).

Modelling conventions:
* A Rust byte slice `&[u8]` / `Vec<u8>` is a `List Nat` whose elements are
  byte values.
* A Rust `String` is modelled by its UTF-8 byte content (a `List Nat`);
  `core::str::from_utf8` becomes the executable validator `utf8Valid`.
* `hashbrown::HashMap<String, Object>` is modelled as an association list
  `List (Bytes × Object)`; `HashMap::insert` (replace-or-append) is
  `mapInsert`, `HashMap::try_insert` (fail on existing key) is `tryInsert`.
  Iteration order of the model is the list order.
* The `Err(String)` values of the source are represented by the inductive
  `PErr`, one constructor per distinct `Err(...)` site / message of lib.rs.
* Rust panics (the `read_bytes::<8>(input).unwrap()` in `parse_root` and the
  `unreachable!()` arm of `to_obj_type`) are modelled as `none` in an outer
  `Option` layer.
* The decode loops of the source are recursive functions with an explicit
  fuel parameter; every loop iteration of the source consumes at least one
  input byte per two fuel units, so the canonical fuel `2 * input.length + 2`
  used by `Object.parse_root` is always sufficient.
-/

abbrev Bytes := List Nat

/-- Mirrors `pub const FORMULAE_MAGIC: &str = "formulae"` as its bytes. -/
def FORMULAE_MAGIC : Bytes := [102, 111, 114, 109, 117, 108, 97, 101]

namespace obj_types

/-- Mirrors `pub const BOOL: u8 = 0`. -/
def BOOL : Nat := 0

/-- Mirrors `pub const INT32: u8 = 1`. -/
def INT32 : Nat := 1

/-- Mirrors `pub const INT64: u8 = 2`. -/
def INT64 : Nat := 2

/-- Mirrors `pub const STR: u8 = 3`. -/
def STR : Nat := 3

/-- Mirrors `pub const DICT: u8 = 4`. -/
def DICT : Nat := 4

/-- Modelled from the spec: the file backing `pub mod obj_types` is not
present under src (src/src/node_types.rs carries the other constants but
omits `ARRAY`, which lib.rs references). The spec fixes the Array tag:
"Tag byte values: Bool=0, Int32=1, Int64=2, String=3, Dictionary=4,
Array=5 (optional), End=0xFF". -/
def ARRAY : Nat := 5

/-- Mirrors `pub const END: u8 = 0xFF`. -/
def END : Nat := 255

end obj_types

/-- Mirrors `fn read_bytes::<N>(input) -> Option<([u8; N], &[u8])>`. -/
def read_bytes (n : Nat) (input : Bytes) : Option (Bytes × Bytes) :=
  if input.length < n then none else some (input.take n, input.drop n)

/-- Little-endian value of a byte list, as used by `u16::from_le_bytes` and
`u64::from_le_bytes` in the source. -/
def fromLE (bs : Bytes) : Nat := bs.foldr (fun b acc => b + 256 * acc) 0

/-- Little-endian bytes of a value at a fixed width, as produced by
`to_le_bytes` in the source. -/
def toLE : Nat → Nat → Bytes
  | 0, _ => []
  | n + 1, v => v % 256 :: toLE n (v / 256)

/-- Continuation-byte test of UTF-8 (0x80..=0xBF). -/
def utf8Cont (b : Nat) : Bool := 128 ≤ b && b ≤ 191

/-- Executable model of the validation performed by `core::str::from_utf8`
(RFC 3629 well-formed UTF-8). -/
def utf8Valid : Bytes → Bool
  | [] => true
  | b :: rest =>
    if b ≤ 127 then utf8Valid rest
    else if 194 ≤ b && b ≤ 223 then
      match rest with
      | c1 :: rest => utf8Cont c1 && utf8Valid rest
      | [] => false
    else if b = 224 then
      match rest with
      | c1 :: c2 :: rest => (160 ≤ c1 && c1 ≤ 191) && utf8Cont c2 && utf8Valid rest
      | _ => false
    else if 225 ≤ b && b ≤ 236 then
      match rest with
      | c1 :: c2 :: rest => utf8Cont c1 && utf8Cont c2 && utf8Valid rest
      | _ => false
    else if b = 237 then
      match rest with
      | c1 :: c2 :: rest => (128 ≤ c1 && c1 ≤ 159) && utf8Cont c2 && utf8Valid rest
      | _ => false
    else if 238 ≤ b && b ≤ 239 then
      match rest with
      | c1 :: c2 :: rest => utf8Cont c1 && utf8Cont c2 && utf8Valid rest
      | _ => false
    else if b = 240 then
      match rest with
      | c1 :: c2 :: c3 :: rest =>
        (144 ≤ c1 && c1 ≤ 191) && utf8Cont c2 && utf8Cont c3 && utf8Valid rest
      | _ => false
    else if 241 ≤ b && b ≤ 243 then
      match rest with
      | c1 :: c2 :: c3 :: rest =>
        utf8Cont c1 && utf8Cont c2 && utf8Cont c3 && utf8Valid rest
      | _ => false
    else if b = 244 then
      match rest with
      | c1 :: c2 :: c3 :: rest =>
        (128 ≤ c1 && c1 ≤ 143) && utf8Cont c2 && utf8Cont c3 && utf8Valid rest
      | _ => false
    else false

/-- Mirrors `fn read_key(input) -> Option<(String, &[u8])>`: a 2-byte
little-endian length, a bounds check, and a UTF-8 check. -/
def read_key (input : Bytes) : Option (Bytes × Bytes) :=
  match read_bytes 2 input with
  | none => none
  | some (lenb, input) =>
    let len := fromLE lenb
    if input.length < len then none
    else if utf8Valid (input.take len) then some (input.take len, input.drop len)
    else none

/-- Mirrors `fn read_string(input) -> Option<(String, &[u8])>`: an 8-byte
little-endian length, a bounds check, and a UTF-8 check. Note that the
source maps a UTF-8 failure to `None` exactly like a bounds failure
(`core::str::from_utf8(head).ok()?`). -/
def read_string (input : Bytes) : Option (Bytes × Bytes) :=
  match read_bytes 8 input with
  | none => none
  | some (lenb, input) =>
    let len := fromLE lenb
    if input.length < len then none
    else if utf8Valid (input.take len) then some (input.take len, input.drop len)
    else none

/-- One constructor per distinct `Err(...)` site of lib.rs.
* `dataTooSmall` = "Data too small"
* `magicUtf8` = the `Utf8Error` string produced by
  `core::str::from_utf8(&magic).map_err(|e| e.to_string())?`
* `invalidMagic` = "Invalid magic"
* `invalidBool v` = "Invalid value for Bool object: v"
* `eofBool` / `eofInt32` / `eofInt64` / `eofString` = "Data unexpectedly
  ended while parsing Bool/Int32/Int64/String object"
* `eofDictContents` = "Data unexpectedly ended while parsing Dictionary
  object contents"
* `eofDict` = "Data unexpectedly ended while parsing Dictionary object"
* `eofArray` = "Data unexpectedly ended while parsing Array object"
* `rootUnexpectedEnd` = "Data unexpectedly ended"
* `missingEnd` = "Missing End object"
* `duplicateKey` = "Tried to insert already existing value"
* `unknownType t` = "Unknown Object type: t" -/
inductive PErr where
  | dataTooSmall
  | magicUtf8
  | invalidMagic
  | invalidBool (v : Nat)
  | eofBool
  | eofInt32
  | eofInt64
  | eofString
  | eofDictContents
  | eofDict
  | eofArray
  | rootUnexpectedEnd
  | missingEnd
  | duplicateKey
  | unknownType (t : Nat)
deriving DecidableEq, Repr

/-- Mirrors `pub enum Object` of lib.rs. -/
inductive Object where
  | Root (data : List (Bytes × Object))
  | Bool (value : Bool)
  | Int32 (value : Nat)
  | Int64 (value : Nat)
  | String (value : Bytes)
  | Dictionary (data : List (Bytes × Object))
  | Array (items : List Object)

/-- Mirrors `HashMap::insert`: replace the value at an existing key,
otherwise add the entry. -/
def mapInsert : List (Bytes × Object) → Bytes → Object → List (Bytes × Object)
  | [], k, v => [(k, v)]
  | p :: rest, k, v => if p.1 = k then (k, v) :: rest else p :: mapInsert rest k v

/-- Key membership in the association-list model of `HashMap`. -/
def hasKey (m : List (Bytes × Object)) (k : Bytes) : Bool :=
  m.any (fun p => p.1 == k)

/-- Mirrors `HashMap::try_insert`: fails when the key is already present. -/
def tryInsert (m : List (Bytes × Object)) (k : Bytes) (v : Object) :
    Option (List (Bytes × Object)) :=
  if hasKey m k then none else some (m ++ [(k, v)])

/-- Lookup in the association-list model of `HashMap`. -/
def mapLookup : List (Bytes × Object) → Bytes → Option Object
  | [], _ => none
  | p :: rest, k => if p.1 = k then some p.2 else mapLookup rest k

/-- Mirrors `Object::to_obj_type`. The `unreachable!()` arm (reached exactly
by `Root`) is modelled as `none`. -/
def Object.to_obj_type : Object → Option Nat
  | .Bool _ => some obj_types.BOOL
  | .Int32 _ => some obj_types.INT32
  | .Int64 _ => some obj_types.INT64
  | .String _ => some obj_types.STR
  | .Dictionary _ => some obj_types.DICT
  | .Array _ => some obj_types.ARRAY
  | .Root _ => none

/-- True exactly on the `Root` constructor. -/
def isRoot : Object → Bool
  | .Root _ => true
  | _ => false

mutual

/-- Mirrors `Object::parse(obj_type, input)`. The first argument is fuel
(decremented at every recursive call and loop iteration of the source);
the outer `Option` is `none` only on fuel exhaustion, which the canonical
fuel of `Object.parse_root` never reaches. -/
def Object.parse : Nat → Nat → Bytes → Option (Except PErr (Option (Object × Bytes)))
  | 0, _, _ => none
  | fuel + 1, obj_type, input =>
    if obj_type = obj_types.BOOL then
      match read_bytes 1 input with
      | some ([value], input) =>
        if value > 1 then some (.error (.invalidBool value))
        else some (.ok (some (.Bool (value == 1), input)))
      | _ => some (.error .eofBool)
    else if obj_type = obj_types.INT32 then
      match read_bytes 4 input with
      | some (bytes, input) => some (.ok (some (.Int32 (fromLE bytes), input)))
      | none => some (.error .eofInt32)
    else if obj_type = obj_types.INT64 then
      match read_bytes 8 input with
      | some (bytes, input) => some (.ok (some (.Int64 (fromLE bytes), input)))
      | none => some (.error .eofInt64)
    else if obj_type = obj_types.STR then
      match read_string input with
      | some (s, input) => some (.ok (some (.String s, input)))
      | none => some (.error .eofString)
    else if obj_type = obj_types.DICT then
      Object.parseDictLoop fuel [] input
    else if obj_type = obj_types.ARRAY then
      Object.parseArrayLoop fuel [] input
    else if obj_type = obj_types.END then
      some (.ok none)
    else some (.error (.unknownType obj_type))

/-- Mirrors the `loop` of the `obj_types::DICT` arm of `Object::parse`. -/
def Object.parseDictLoop : Nat → List (Bytes × Object) → Bytes →
    Option (Except PErr (Option (Object × Bytes)))
  | 0, _, _ => none
  | fuel + 1, map, input =>
    match read_bytes 1 input with
    | some ([obj_type], input) =>
      match read_key input with
      | some (key, input) =>
        match Object.parse fuel obj_type input with
        | none => none
        | some (.error e) => some (.error e)
        | some (.ok none) => some (.ok (some (.Dictionary map, input)))
        | some (.ok (some (object, rest))) =>
          Object.parseDictLoop fuel (mapInsert map key object) rest
      | none => some (.error .eofDictContents)
    | _ => some (.error .eofDict)

/-- Mirrors the `loop` of the `obj_types::ARRAY` arm of `Object::parse`.
Note that on the end tag the remaining input is the input right after the
tag byte: unlike the encoder, the array loop consumes no 2-byte key-length
field after `END`. -/
def Object.parseArrayLoop : Nat → List Object → Bytes →
    Option (Except PErr (Option (Object × Bytes)))
  | 0, _, _ => none
  | fuel + 1, items, input =>
    match read_bytes 1 input with
    | some ([obj_type], input) =>
      match Object.parse fuel obj_type input with
      | none => none
      | some (.error e) => some (.error e)
      | some (.ok none) => some (.ok (some (.Array items, input)))
      | some (.ok (some (object, rest))) =>
        Object.parseArrayLoop fuel (items ++ [object]) rest
    | _ => some (.error .eofArray)

end

/-- Mirrors the `while !input.is_empty()` loop of `Object::parse_root`.
When `read_key` fails there is no `else` branch in the source: the tag byte
stays consumed and the loop retries from the next byte. -/
def Object.parse_root_loop : Nat → List (Bytes × Object) → Bytes →
    Option (Except PErr Object)
  | 0, _, _ => none
  | fuel + 1, data, input =>
    if input.isEmpty then some (.error .missingEnd)
    else
      match read_bytes 1 input with
      | some ([obj_type], input) =>
        match read_key input with
        | some (key, input) =>
          match Object.parse fuel obj_type input with
          | none => none
          | some (.error e) => some (.error e)
          | some (.ok none) => some (.ok (.Root data))
          | some (.ok (some (object, rest))) =>
            match tryInsert data key object with
            | none => some (.error .duplicateKey)
            | some data => Object.parse_root_loop fuel data rest
        | none => Object.parse_root_loop fuel data input
      | _ => some (.error .rootUnexpectedEnd)

/-- Mirrors `Object::parse_root`. The source checks `input.len() < 2` and
then calls `read_bytes::<8>(input).unwrap()`; the `unwrap` panic (inputs of
length 2..=7) is modelled as `none`. -/
def Object.parse_root (input : Bytes) : Option (Except PErr Object) :=
  if input.length < 2 then some (.error .dataTooSmall)
  else
    match read_bytes 8 input with
    | none => none
    | some (magic, rest) =>
      if utf8Valid magic then
        if magic = FORMULAE_MAGIC then Object.parse_root_loop (2 * rest.length + 2) [] rest
        else some (.error .invalidMagic)
      else some (.error .magicUtf8)

mutual

/-- Mirrors `Object::into_bytes`. `none` models the `unreachable!()` panic
of `to_obj_type`, reached when a `Root` occurs as a child. -/
def Object.into_bytes : Object → Option Bytes
  | .Root data =>
    (Object.encodeEntries data).map
      (fun e => FORMULAE_MAGIC ++ e ++ obj_types.END :: toLE 2 0)
  | .Bool value => some [if value then 1 else 0]
  | .Int32 value => some (toLE 4 value)
  | .Int64 value => some (toLE 8 value)
  | .String value => some (toLE 8 value.length ++ value)
  | .Dictionary data =>
    (Object.encodeEntries data).map (fun e => e ++ obj_types.END :: toLE 2 0)
  | .Array items =>
    (Object.encodeItems items).map (fun e => e ++ obj_types.END :: toLE 2 0)

/-- Mirrors the per-entry loop shared verbatim by the `Root` and
`Dictionary` arms of `Object::into_bytes`: tag byte, `key.len() as u16` in
little endian, key bytes, then the encoded child. -/
def Object.encodeEntries : List (Bytes × Object) → Option Bytes
  | [] => some []
  | (key, object) :: rest => do
    let t ← object.to_obj_type
    let payload ← object.into_bytes
    let r ← Object.encodeEntries rest
    pure (t :: (toLE 2 (key.length % 65536) ++ key ++ payload ++ r))

/-- Mirrors the per-item loop of the `Array` arm of `Object::into_bytes`:
tag byte then the encoded child, no key. -/
def Object.encodeItems : List Object → Option Bytes
  | [] => some []
  | object :: rest => do
    let t ← object.to_obj_type
    let payload ← object.into_bytes
    let r ← Object.encodeItems rest
    pure (t :: (payload ++ r))

end

mutual

/-- Well-formedness of a `Value` constructible in Rust below the root:
not a `Root`, machine integers in range, strings valid UTF-8 of `u64`
length, mapping keys valid UTF-8 of `u16` length and unique. -/
def wfV : Object → Bool
  | .Root _ => false
  | .Bool _ => true
  | .Int32 v => decide (v < 4294967296)
  | .Int64 v => decide (v < 18446744073709551616)
  | .String s => utf8Valid s && decide (s.length < 18446744073709551616)
  | .Dictionary data => decide ((data.map Prod.fst).Nodup) && wfEntries data
  | .Array items => wfItems items

/-- Entry-list component of `wfV`. -/
def wfEntries : List (Bytes × Object) → Bool
  | [] => true
  | (k, v) :: rest => utf8Valid k && decide (k.length < 65536) && wfV v && wfEntries rest

/-- Item-list component of `wfV`. -/
def wfItems : List Object → Bool
  | [] => true
  | v :: rest => wfV v && wfItems rest

end

/-- Well-formedness of a top-level `Root(data)` value. -/
def rootWF (data : List (Bytes × Object)) : Bool :=
  decide ((data.map Prod.fst).Nodup) && wfEntries data

mutual

/-- True when no `Array` occurs anywhere in the value. -/
def arrFree : Object → Bool
  | .Root data => arrFreeEntries data
  | .Dictionary data => arrFreeEntries data
  | .Array _ => false
  | _ => true

/-- Entry-list component of `arrFree`. -/
def arrFreeEntries : List (Bytes × Object) → Bool
  | [] => true
  | (_, v) :: rest => arrFree v && arrFreeEntries rest

end

mutual

/-- True when no `Root` occurs anywhere in the value. -/
def rootFree : Object → Bool
  | .Root _ => false
  | .Dictionary data => rootFreeEntries data
  | .Array items => rootFreeItems items
  | _ => true

/-- Entry-list component of `rootFree`. -/
def rootFreeEntries : List (Bytes × Object) → Bool
  | [] => true
  | (_, v) :: rest => rootFree v && rootFreeEntries rest

/-- Item-list component of `rootFree`. -/
def rootFreeItems : List Object → Bool
  | [] => true
  | v :: rest => rootFree v && rootFreeItems rest

end

/-- True when `Root` occurs only as the outermost constructor, if at all. -/
def rootOnlyAtTop : Object → Bool
  | .Root data => rootFreeEntries data
  | v => rootFree v

theorem fromLE_cons (b : Nat) (bs : Bytes) : fromLE (b :: bs) = b + 256 * fromLE bs := rfl

theorem toLE_length (w v : Nat) : (toLE w v).length = w := by
  induction w generalizing v with
  | zero => rfl
  | succ w ih => simp [toLE, ih]

theorem fromLE_toLE (w v : Nat) : fromLE (toLE w v) = v % 256 ^ w := by
  induction w generalizing v with
  | zero => simp [toLE, fromLE, Nat.mod_one]
  | succ w ih =>
    rw [toLE, fromLE_cons, ih, pow_succ', Nat.mod_mul]

theorem read_bytes_exact {l : Bytes} {n : Nat} (r : Bytes) (h : l.length = n) :
    read_bytes n (l ++ r) = some (l, r) := by
  have hn : ¬ (l ++ r).length < n := by rw [List.length_append]; omega
  simp only [read_bytes]
  rw [if_neg hn, List.take_left' h, List.drop_left' h]

theorem read_bytes_one (b : Nat) (r : Bytes) : read_bytes 1 (b :: r) = some ([b], r) := by
  simpa using read_bytes_exact (l := [b]) r rfl

theorem read_key_encoded {k : Bytes} (r : Bytes) (hu : utf8Valid k = true)
    (hl : k.length < 65536) :
    read_key (toLE 2 (k.length % 65536) ++ (k ++ r)) = some (k, r) := by
  rw [Nat.mod_eq_of_lt hl]
  have h2 := read_bytes_exact (l := toLE 2 k.length) (k ++ r) (toLE_length 2 _)
  have hf : fromLE (toLE 2 k.length) = k.length := by
    rw [fromLE_toLE]
    exact Nat.mod_eq_of_lt (by norm_num at hl ⊢; omega)
  have hlen : ¬ (k ++ r).length < k.length := by simp
  simp [read_key, h2, hf, hlen, List.take_left, List.drop_left, hu]

theorem read_key_nil_key (r : Bytes) : read_key (0 :: 0 :: r) = some ([], r) := by
  simpa using read_key_encoded (k := []) r rfl (by norm_num)

theorem read_string_encoded {s : Bytes} (r : Bytes) (hu : utf8Valid s = true)
    (hl : s.length < 18446744073709551616) :
    read_string (toLE 8 s.length ++ (s ++ r)) = some (s, r) := by
  have h8 := read_bytes_exact (l := toLE 8 s.length) (s ++ r) (toLE_length 8 _)
  have hf : fromLE (toLE 8 s.length) = s.length := by
    rw [fromLE_toLE]
    exact Nat.mod_eq_of_lt (by norm_num at hl ⊢; omega)
  have hlen : ¬ (s ++ r).length < s.length := by simp
  simp [read_string, h8, hf, hlen, List.take_left, List.drop_left, hu]

theorem hasKey_cons (p : Bytes × Object) (m : List (Bytes × Object)) (k : Bytes) :
    hasKey (p :: m) k = ((p.1 == k) || hasKey m k) := by
  simp [hasKey]

theorem mapInsert_fresh {m : List (Bytes × Object)} {k : Bytes} (v : Object)
    (h : hasKey m k = false) : mapInsert m k v = m ++ [(k, v)] := by
  induction m with
  | nil => rfl
  | cons p rest ih =>
    rw [hasKey_cons] at h
    simp only [Bool.or_eq_false_iff, beq_eq_false_iff_ne, ne_eq] at h
    simp [mapInsert, h.1, ih h.2]

theorem tryInsert_fresh {m : List (Bytes × Object)} {k : Bytes} (v : Object)
    (h : hasKey m k = false) : tryInsert m k v = some (m ++ [(k, v)]) := by
  simp [tryInsert, h]

theorem mapLookup_mapInsert (m : List (Bytes × Object)) (k : Bytes) (v : Object) :
    mapLookup (mapInsert m k v) k = some v := by
  induction m with
  | nil => simp [mapInsert, mapLookup]
  | cons p rest ih =>
    by_cases h : p.1 = k
    · rw [mapInsert, if_pos h, mapLookup, if_pos rfl]
    · rw [mapInsert, if_neg h, mapLookup, if_neg h, ih]

theorem wfEntries_mem {data : List (Bytes × Object)} (h : wfEntries data = true)
    {p : Bytes × Object} (hp : p ∈ data) :
    utf8Valid p.1 = true ∧ p.1.length < 65536 ∧ wfV p.2 = true := by
  induction data with
  | nil => cases hp
  | cons q rest ih =>
    obtain ⟨k, v⟩ := q
    rw [wfEntries] at h
    simp only [Bool.and_eq_true, decide_eq_true_eq] at h
    rcases List.mem_cons.mp hp with rfl | hp
    · exact ⟨h.1.1.1, h.1.1.2, h.1.2⟩
    · exact ih h.2 hp

theorem arrFreeEntries_mem {data : List (Bytes × Object)} (h : arrFreeEntries data = true)
    {p : Bytes × Object} (hp : p ∈ data) : arrFree p.2 = true := by
  induction data with
  | nil => cases hp
  | cons q rest ih =>
    obtain ⟨k, v⟩ := q
    rw [arrFreeEntries] at h
    simp only [Bool.and_eq_true] at h
    rcases List.mem_cons.mp hp with rfl | hp
    · exact h.1
    · exact ih h.2 hp

theorem sizeOf_snd_lt_dict {data : List (Bytes × Object)} {p : Bytes × Object}
    (hp : p ∈ data) : sizeOf p.2 < sizeOf (Object.Dictionary data) := by
  have h1 : sizeOf p < sizeOf data := List.sizeOf_lt_of_mem hp
  have h2 : sizeOf p.2 ≤ sizeOf p := by
    obtain ⟨a, b⟩ := p
    simp only [Prod.mk.sizeOf_spec]
    omega
  have h3 : sizeOf (Object.Dictionary data) = 1 + sizeOf data := by
    simp
  omega

theorem parse_succ_end (f : Nat) (input : Bytes) :
    Object.parse (f + 1) 255 input = some (.ok none) := rfl

theorem parse_succ_dict (f : Nat) (input : Bytes) :
    Object.parse (f + 1) 4 input = Object.parseDictLoop f [] input := rfl

theorem parse_succ_array (f : Nat) (input : Bytes) :
    Object.parse (f + 1) 5 input = Object.parseArrayLoop f [] input := rfl

theorem parse_succ_bool (f : Nat) (b : Bool) (r : Bytes) :
    Object.parse (f + 1) 0 ((if b then 1 else 0) :: r) =
      some (.ok (some (.Bool b, r))) := by
  cases b <;> simp [Object.parse, read_bytes_one, obj_types.BOOL]

theorem parse_succ_int32 (f v : Nat) (r : Bytes) (hv : v < 4294967296) :
    Object.parse (f + 1) 1 (toLE 4 v ++ r) =
      some (.ok (some (.Int32 v, r))) := by
  have h := read_bytes_exact (l := toLE 4 v) r (toLE_length 4 v)
  have hf : fromLE (toLE 4 v) = v := by
    rw [fromLE_toLE]
    exact Nat.mod_eq_of_lt (by norm_num; omega)
  simp [Object.parse, h, hf, obj_types.BOOL, obj_types.INT32]

theorem parse_succ_int64 (f v : Nat) (r : Bytes) (hv : v < 18446744073709551616) :
    Object.parse (f + 1) 2 (toLE 8 v ++ r) =
      some (.ok (some (.Int64 v, r))) := by
  have h := read_bytes_exact (l := toLE 8 v) r (toLE_length 8 v)
  have hf : fromLE (toLE 8 v) = v := by
    rw [fromLE_toLE]
    exact Nat.mod_eq_of_lt (by norm_num; omega)
  simp [Object.parse, h, hf, obj_types.BOOL, obj_types.INT32, obj_types.INT64]

theorem parse_succ_string (f : Nat) {s : Bytes} (r : Bytes) (hu : utf8Valid s = true)
    (hl : s.length < 18446744073709551616) :
    Object.parse (f + 1) 3 ((toLE 8 s.length ++ s) ++ r) =
      some (.ok (some (.String s, r))) := by
  have h := read_string_encoded r hu hl
  rw [List.append_assoc]
  simp [Object.parse, h, obj_types.BOOL, obj_types.INT32, obj_types.INT64, obj_types.STR]

theorem encodeEntries_cons_inv {k : Bytes} {o : Object} {tl : List (Bytes × Object)}
    {eb : Bytes} (h : Object.encodeEntries ((k, o) :: tl) = some eb) :
    ∃ t pb r, Object.to_obj_type o = some t ∧ Object.into_bytes o = some pb ∧
      Object.encodeEntries tl = some r ∧
      eb = t :: (toLE 2 (k.length % 65536) ++ (k ++ (pb ++ r))) := by
  rw [Object.encodeEntries] at h
  cases ht : Object.to_obj_type o with
  | none => rw [ht] at h; simp at h
  | some t =>
    rw [ht] at h
    cases hpb : Object.into_bytes o with
    | none => rw [hpb] at h; simp at h
    | some pb =>
      rw [hpb] at h
      cases hr : Object.encodeEntries tl with
      | none => rw [hr] at h; simp at h
      | some r =>
        rw [hr] at h
        simp at h
        exact ⟨t, pb, r, rfl, rfl, rfl, h.symm⟩

theorem hasKey_append_single (m : List (Bytes × Object)) (k : Bytes) (o : Object)
    (q : Bytes) : hasKey (m ++ [(k, o)]) q = (hasKey m q || (k == q)) := by
  simp [hasKey, List.any_append]

theorem parseDictLoop_encoded
    (data : List (Bytes × Object))
    (hv : ∀ p ∈ data, ∀ t pb, Object.to_obj_type p.2 = some t →
      Object.into_bytes p.2 = some pb → ∀ fuel r, 2 * pb.length + 1 ≤ fuel →
      Object.parse fuel t (pb ++ r) = some (.ok (some (p.2, r))))
    (hwf : wfEntries data = true)
    (hnd : (data.map Prod.fst).Nodup) :
    ∀ eb, Object.encodeEntries data = some eb →
    ∀ map fuel rest, (∀ k ∈ data.map Prod.fst, hasKey map k = false) →
      2 * eb.length + 2 ≤ fuel →
      Object.parseDictLoop fuel map (eb ++ 255 :: 0 :: 0 :: rest) =
        some (.ok (some (.Dictionary (map ++ data), rest))) := by
  induction data with
  | nil =>
    intro eb heb map fuel rest hdisj hfuel
    rw [Object.encodeEntries] at heb
    obtain rfl : ([] : Bytes) = eb := Option.some.inj heb
    obtain ⟨f, rfl⟩ : ∃ f, fuel = f + 1 + 1 := ⟨fuel - 2, by omega⟩
    rw [List.nil_append, Object.parseDictLoop]
    simp only [read_bytes_one, read_key_nil_key, parse_succ_end, List.append_nil]
  | cons p tl ih =>
    obtain ⟨k, o⟩ := p
    intro eb heb map fuel rest hdisj hfuel
    obtain ⟨t, pb, r, ht, hpb, hr, rfl⟩ := encodeEntries_cons_inv heb
    rw [wfEntries] at hwf
    simp only [Bool.and_eq_true, decide_eq_true_eq] at hwf
    obtain ⟨⟨⟨hku, hkl⟩, hko⟩, hwtl⟩ := hwf
    simp only [List.map_cons, List.nodup_cons] at hnd
    obtain ⟨hknotin, hndtl⟩ := hnd
    obtain ⟨f, rfl⟩ : ∃ f, fuel = f + 1 := ⟨fuel - 1, by omega⟩
    have hlen : (t :: (toLE 2 (k.length % 65536) ++ (k ++ (pb ++ r)))).length =
        1 + 2 + k.length + pb.length + r.length := by
      simp [toLE_length]
      omega
    rw [List.cons_append, Object.parseDictLoop]
    have hshape : (toLE 2 (k.length % 65536) ++ (k ++ (pb ++ r))) ++ 255 :: 0 :: 0 :: rest
        = toLE 2 (k.length % 65536) ++ (k ++ (pb ++ (r ++ 255 :: 0 :: 0 :: rest))) := by
      simp [List.append_assoc]
    have hparse : Object.parse f t (pb ++ (r ++ 255 :: 0 :: 0 :: rest)) =
        some (.ok (some (o, r ++ 255 :: 0 :: 0 :: rest))) := by
      apply hv (k, o) (List.mem_cons_self _ _) t pb ht hpb
      rw [hlen] at hfuel
      omega
    have hfresh : hasKey map k = false := hdisj k (by simp)
    have hrec := ih (fun p hp => hv p (List.mem_cons_of_mem _ hp)) hwtl hndtl r hr
      (map ++ [(k, o)]) f rest
      (by
        intro q hq
        rw [hasKey_append_single]
        have h1 : hasKey map q = false := hdisj q (by simp [hq])
        have h2 : ¬ k = q := fun h => hknotin (h ▸ hq)
        simp [h1, h2])
      (by rw [hlen] at hfuel; omega)
    simp only [read_bytes_one, hshape, read_key_encoded _ hku hkl, hparse,
      mapInsert_fresh o hfresh, hrec]
    simp [List.append_assoc]

theorem parse_encoded : ∀ (n : Nat) (v : Object), sizeOf v ≤ n → wfV v = true →
    arrFree v = true →
    ∀ t pb, Object.to_obj_type v = some t → Object.into_bytes v = some pb →
    ∀ fuel r, 2 * pb.length + 1 ≤ fuel →
    Object.parse fuel t (pb ++ r) = some (.ok (some (v, r))) := by
  intro n
  induction n using Nat.strong_induction_on with
  | _ n IH =>
    intro v hsz hwf harr t pb ht hpb fuel r hfuel
    cases v with
    | Root data =>
      rw [wfV] at hwf
      cases hwf
    | Array items =>
      rw [arrFree] at harr
      cases harr
    | Bool b =>
      rw [Object.to_obj_type] at ht
      obtain rfl : obj_types.BOOL = t := Option.some.inj ht
      rw [Object.into_bytes] at hpb
      obtain rfl : [if b then 1 else 0] = pb := Option.some.inj hpb
      obtain ⟨f, rfl⟩ : ∃ f, fuel = f + 1 := ⟨fuel - 1, by omega⟩
      rw [List.singleton_append]
      exact parse_succ_bool f b r
    | Int32 w =>
      rw [Object.to_obj_type] at ht
      obtain rfl : obj_types.INT32 = t := Option.some.inj ht
      rw [Object.into_bytes] at hpb
      obtain rfl : toLE 4 w = pb := Option.some.inj hpb
      rw [wfV] at hwf
      obtain ⟨f, rfl⟩ : ∃ f, fuel = f + 1 := ⟨fuel - 1, by omega⟩
      exact parse_succ_int32 f w r (of_decide_eq_true hwf)
    | Int64 w =>
      rw [Object.to_obj_type] at ht
      obtain rfl : obj_types.INT64 = t := Option.some.inj ht
      rw [Object.into_bytes] at hpb
      obtain rfl : toLE 8 w = pb := Option.some.inj hpb
      rw [wfV] at hwf
      obtain ⟨f, rfl⟩ : ∃ f, fuel = f + 1 := ⟨fuel - 1, by omega⟩
      exact parse_succ_int64 f w r (of_decide_eq_true hwf)
    | String s =>
      rw [Object.to_obj_type] at ht
      obtain rfl : obj_types.STR = t := Option.some.inj ht
      rw [Object.into_bytes] at hpb
      obtain rfl : toLE 8 s.length ++ s = pb := Option.some.inj hpb
      rw [wfV] at hwf
      simp only [Bool.and_eq_true, decide_eq_true_eq] at hwf
      obtain ⟨f, rfl⟩ : ∃ f, fuel = f + 1 := ⟨fuel - 1, by omega⟩
      exact parse_succ_string f r hwf.1 hwf.2
    | Dictionary data =>
      rw [Object.to_obj_type] at ht
      obtain rfl : obj_types.DICT = t := Option.some.inj ht
      rw [Object.into_bytes] at hpb
      cases he : Object.encodeEntries data with
      | none => rw [he] at hpb; cases hpb
      | some eb =>
        rw [he] at hpb
        obtain rfl : eb ++ obj_types.END :: toLE 2 0 = pb := Option.some.inj hpb
        rw [wfV] at hwf
        simp only [Bool.and_eq_true, decide_eq_true_eq] at hwf
        obtain ⟨hnd, hwe⟩ := hwf
        rw [arrFree] at harr
        obtain ⟨f, rfl⟩ : ∃ f, fuel = f + 1 := ⟨fuel - 1, by omega⟩
        have hshape : (eb ++ obj_types.END :: toLE 2 0) ++ r = eb ++ 255 :: 0 :: 0 :: r := by
          rw [List.append_assoc]
          rfl
        rw [show Object.parse (f + 1) obj_types.DICT ((eb ++ obj_types.END :: toLE 2 0) ++ r)
            = Object.parseDictLoop f [] ((eb ++ obj_types.END :: toLE 2 0) ++ r) from rfl,
          hshape]
        have hlen : (eb ++ obj_types.END :: toLE 2 0).length = eb.length + 3 := by
          simp [toLE_length, obj_types.END]
        have := parseDictLoop_encoded data
          (fun p hp t pb hpt hppb fuel rr hfl => by
            refine IH (sizeOf p.2) ?_ p.2 le_rfl ?_ ?_ t pb hpt hppb fuel rr hfl
            · exact lt_of_lt_of_le (sizeOf_snd_lt_dict hp) hsz
            · exact (wfEntries_mem hwe hp).2.2
            · exact arrFreeEntries_mem harr hp)
          hwe hnd eb he [] f r (fun k hk => rfl)
          (by rw [hlen] at hfuel; omega)
        rw [this]
        simp

theorem parse_root_loop_encoded
    (entries : List (Bytes × Object))
    (hwf : wfEntries entries = true)
    (harr : arrFreeEntries entries = true)
    (hnd : (entries.map Prod.fst).Nodup) :
    ∀ eb, Object.encodeEntries entries = some eb →
    ∀ data fuel, (∀ k ∈ entries.map Prod.fst, hasKey data k = false) →
      2 * eb.length + 2 ≤ fuel →
      Object.parse_root_loop fuel data (eb ++ 255 :: 0 :: 0 :: []) =
        some (.ok (.Root (data ++ entries))) := by
  induction entries with
  | nil =>
    intro eb heb data fuel hdisj hfuel
    rw [Object.encodeEntries] at heb
    obtain rfl : ([] : Bytes) = eb := Option.some.inj heb
    obtain ⟨f, rfl⟩ : ∃ f, fuel = f + 1 + 1 := ⟨fuel - 2, by omega⟩
    rw [List.nil_append, Object.parse_root_loop]
    simp only [List.isEmpty_cons, Bool.false_eq_true, if_false, read_bytes_one,
      read_key_nil_key, parse_succ_end, List.append_nil]
  | cons p tl ih =>
    obtain ⟨k, o⟩ := p
    intro eb heb data fuel hdisj hfuel
    obtain ⟨t, pb, r, ht, hpb, hr, rfl⟩ := encodeEntries_cons_inv heb
    rw [wfEntries] at hwf
    simp only [Bool.and_eq_true, decide_eq_true_eq] at hwf
    obtain ⟨⟨⟨hku, hkl⟩, hko⟩, hwtl⟩ := hwf
    rw [arrFreeEntries] at harr
    simp only [Bool.and_eq_true] at harr
    obtain ⟨hao, hatl⟩ := harr
    simp only [List.map_cons, List.nodup_cons] at hnd
    obtain ⟨hknotin, hndtl⟩ := hnd
    obtain ⟨f, rfl⟩ : ∃ f, fuel = f + 1 := ⟨fuel - 1, by omega⟩
    have hlen : (t :: (toLE 2 (k.length % 65536) ++ (k ++ (pb ++ r)))).length =
        1 + 2 + k.length + pb.length + r.length := by
      simp [toLE_length]
      omega
    rw [List.cons_append, Object.parse_root_loop]
    have hshape : (toLE 2 (k.length % 65536) ++ (k ++ (pb ++ r))) ++ 255 :: 0 :: 0 :: []
        = toLE 2 (k.length % 65536) ++ (k ++ (pb ++ (r ++ 255 :: 0 :: 0 :: []))) := by
      simp [List.append_assoc]
    have hparse : Object.parse f t (pb ++ (r ++ 255 :: 0 :: 0 :: [])) =
        some (.ok (some (o, r ++ 255 :: 0 :: 0 :: []))) := by
      apply parse_encoded (sizeOf o) o le_rfl hko hao t pb ht hpb
      rw [hlen] at hfuel
      omega
    have hfresh : hasKey data k = false := hdisj k (by simp)
    have hrec := ih hwtl hatl hndtl r hr (data ++ [(k, o)]) f
      (by
        intro q hq
        rw [hasKey_append_single]
        have h1 : hasKey data q = false := hdisj q (by simp [hq])
        have h2 : ¬ k = q := fun h => hknotin (h ▸ hq)
        simp [h1, h2])
      (by rw [hlen] at hfuel; omega)
    simp only [List.isEmpty_cons, Bool.false_eq_true, if_false, read_bytes_one, hshape,
      read_key_encoded _ hku hkl, hparse, tryInsert_fresh o hfresh, hrec]
    simp [List.append_assoc]

theorem parse_root_into_bytes {data : List (Bytes × Object)} {B : Bytes}
    (hwf : rootWF data = true) (harr : arrFreeEntries data = true)
    (hB : Object.into_bytes (.Root data) = some B) :
    Object.parse_root B = some (.ok (.Root data)) := by
  rw [Object.into_bytes] at hB
  cases he : Object.encodeEntries data with
  | none => rw [he] at hB; cases hB
  | some eb =>
    rw [he] at hB
    obtain rfl : FORMULAE_MAGIC ++ eb ++ obj_types.END :: toLE 2 0 = B := Option.some.inj hB
    rw [rootWF] at hwf
    simp only [Bool.and_eq_true, decide_eq_true_eq] at hwf
    obtain ⟨hnd, hwe⟩ := hwf
    have hBshape : FORMULAE_MAGIC ++ eb ++ obj_types.END :: toLE 2 0
        = FORMULAE_MAGIC ++ (eb ++ 255 :: 0 :: 0 :: []) := by
      rw [List.append_assoc]
      rfl
    rw [hBshape]
    have hlen2 : ¬ (FORMULAE_MAGIC ++ (eb ++ 255 :: 0 :: 0 :: [])).length < 2 := by
      simp [FORMULAE_MAGIC]
    have h8 : read_bytes 8 (FORMULAE_MAGIC ++ (eb ++ 255 :: 0 :: 0 :: [])) =
        some (FORMULAE_MAGIC, eb ++ 255 :: 0 :: 0 :: []) :=
      read_bytes_exact _ rfl
    have hu : utf8Valid FORMULAE_MAGIC = true := rfl
    rw [Object.parse_root, if_neg hlen2]
    simp only [h8, hu, eq_self_iff_true, if_true]
    have hL : (eb ++ 255 :: 0 :: 0 :: []).length = eb.length + 3 := by
      simp
    have := parse_root_loop_encoded data hwe harr hnd eb he []
      (2 * (eb ++ 255 :: 0 :: 0 :: []).length + 2) (fun k hk => rfl)
      (by rw [hL]; omega)
    rw [this]
    simp

theorem sizeOf_snd_lt_root {data : List (Bytes × Object)} {p : Bytes × Object}
    (hp : p ∈ data) : sizeOf p.2 < sizeOf (Object.Root data) := by
  have h1 : sizeOf p < sizeOf data := List.sizeOf_lt_of_mem hp
  have h2 : sizeOf p.2 ≤ sizeOf p := by
    obtain ⟨a, b⟩ := p
    simp only [Prod.mk.sizeOf_spec]
    omega
  have h3 : sizeOf (Object.Root data) = 1 + sizeOf data := by
    simp
  omega

theorem sizeOf_mem_lt_array {items : List Object} {o : Object} (ho : o ∈ items) :
    sizeOf o < sizeOf (Object.Array items) := by
  have h1 : sizeOf o < sizeOf items := List.sizeOf_lt_of_mem ho
  have h3 : sizeOf (Object.Array items) = 1 + sizeOf items := by
    simp
  omega

theorem rootFreeEntries_mem {data : List (Bytes × Object)}
    (h : rootFreeEntries data = true) {p : Bytes × Object} (hp : p ∈ data) :
    rootFree p.2 = true := by
  induction data with
  | nil => cases hp
  | cons q rest ih =>
    obtain ⟨k, v⟩ := q
    rw [rootFreeEntries] at h
    simp only [Bool.and_eq_true] at h
    rcases List.mem_cons.mp hp with rfl | hp
    · exact h.1
    · exact ih h.2 hp

theorem rootFreeItems_mem {items : List Object} (h : rootFreeItems items = true)
    {o : Object} (ho : o ∈ items) : rootFree o = true := by
  induction items with
  | nil => cases ho
  | cons q rest ih =>
    rw [rootFreeItems] at h
    simp only [Bool.and_eq_true] at h
    rcases List.mem_cons.mp ho with rfl | ho
    · exact h.1
    · exact ih h.2 ho

theorem to_obj_type_isSome {v : Object} (h : rootFree v = true) :
    (Object.to_obj_type v).isSome = true := by
  cases v with
  | Root data => rw [rootFree] at h; cases h
  | Bool b => rfl
  | Int32 w => rfl
  | Int64 w => rfl
  | String s => rfl
  | Dictionary d => rfl
  | Array l => rfl

theorem rootOnlyAtTop_of_rootFree {v : Object} (h : rootFree v = true) :
    rootOnlyAtTop v = true := by
  cases v with
  | Root data => rw [rootFree] at h; cases h
  | Bool b => exact h
  | Int32 w => exact h
  | Int64 w => exact h
  | String s => exact h
  | Dictionary d => exact h
  | Array l => exact h

theorem encodeEntries_isSome
    (data : List (Bytes × Object))
    (h : ∀ p ∈ data, rootFree p.2 = true ∧ (Object.into_bytes p.2).isSome = true) :
    (Object.encodeEntries data).isSome = true := by
  induction data with
  | nil => rfl
  | cons p tl ih =>
    obtain ⟨k, o⟩ := p
    obtain ⟨hro, hib⟩ := h (k, o) (List.mem_cons_self _ _)
    obtain ⟨t, ht⟩ := Option.isSome_iff_exists.mp (to_obj_type_isSome hro)
    obtain ⟨pb, hpb⟩ := Option.isSome_iff_exists.mp hib
    obtain ⟨r, hre⟩ := Option.isSome_iff_exists.mp
      (ih (fun p hp => h p (List.mem_cons_of_mem _ hp)))
    rw [Object.encodeEntries, ht, hpb, hre]
    rfl

theorem encodeItems_isSome
    (items : List Object)
    (h : ∀ o ∈ items, rootFree o = true ∧ (Object.into_bytes o).isSome = true) :
    (Object.encodeItems items).isSome = true := by
  induction items with
  | nil => rfl
  | cons o tl ih =>
    obtain ⟨hro, hib⟩ := h o (List.mem_cons_self _ _)
    obtain ⟨t, ht⟩ := Option.isSome_iff_exists.mp (to_obj_type_isSome hro)
    obtain ⟨pb, hpb⟩ := Option.isSome_iff_exists.mp hib
    obtain ⟨r, hre⟩ := Option.isSome_iff_exists.mp
      (ih (fun p hp => h p (List.mem_cons_of_mem _ hp)))
    rw [Object.encodeItems, ht, hpb, hre]
    rfl

theorem into_bytes_total : ∀ (n : Nat) (v : Object), sizeOf v ≤ n →
    rootOnlyAtTop v = true → (Object.into_bytes v).isSome = true := by
  intro n
  induction n using Nat.strong_induction_on with
  | _ n IH =>
    intro v hsz hroot
    cases v with
    | Root data =>
      rw [rootOnlyAtTop] at hroot
      have h := encodeEntries_isSome data (fun p hp =>
        ⟨rootFreeEntries_mem hroot hp,
         IH (sizeOf p.2) (lt_of_lt_of_le (sizeOf_snd_lt_root hp) hsz) p.2 le_rfl
           (rootOnlyAtTop_of_rootFree (rootFreeEntries_mem hroot hp))⟩)
      obtain ⟨eb, he⟩ := Option.isSome_iff_exists.mp h
      rw [Object.into_bytes, he]
      rfl
    | Bool b => rfl
    | Int32 w => rfl
    | Int64 w => rfl
    | String s => rfl
    | Dictionary data =>
      have hroot1 : rootFree (Object.Dictionary data) = true := hroot
      rw [rootFree] at hroot1
      have h := encodeEntries_isSome data (fun p hp =>
        ⟨rootFreeEntries_mem hroot1 hp,
         IH (sizeOf p.2) (lt_of_lt_of_le (sizeOf_snd_lt_dict hp) hsz) p.2 le_rfl
           (rootOnlyAtTop_of_rootFree (rootFreeEntries_mem hroot1 hp))⟩)
      obtain ⟨eb, he⟩ := Option.isSome_iff_exists.mp h
      rw [Object.into_bytes, he]
      rfl
    | Array items =>
      have hroot1 : rootFree (Object.Array items) = true := hroot
      rw [rootFree] at hroot1
      have h := encodeItems_isSome items (fun o ho =>
        ⟨rootFreeItems_mem hroot1 ho,
         IH (sizeOf o) (lt_of_lt_of_le (sizeOf_mem_lt_array ho) hsz) o le_rfl
           (rootOnlyAtTop_of_rootFree (rootFreeItems_mem hroot1 ho))⟩)
      obtain ⟨eb, he⟩ := Option.isSome_iff_exists.mp h
      rw [Object.into_bytes, he]
      rfl

theorem read_string_invalid {s : Bytes} (r : Bytes) (hu : utf8Valid s = false)
    (hl : s.length < 18446744073709551616) :
    read_string (toLE 8 s.length ++ (s ++ r)) = none := by
  have h8 := read_bytes_exact (l := toLE 8 s.length) (s ++ r) (toLE_length 8 _)
  have hf : fromLE (toLE 8 s.length) = s.length := by
    rw [fromLE_toLE]
    exact Nat.mod_eq_of_lt (by norm_num at hl ⊢; omega)
  have hlen : ¬ (s ++ r).length < s.length := by simp
  simp [read_string, h8, hf, hlen, List.take_left, List.drop_left, hu]

/-- C7: the one-byte wire tags used by the encoder mapping `to_obj_type`
and by the decoder dispatch of `Object.parse` are exactly Bool=0, Int32=1,
Int64=2, String=3, Dictionary=4, Array=5 and End=0xFF. -/
theorem c7_tag_values :
    obj_types.BOOL = 0 ∧ obj_types.INT32 = 1 ∧ obj_types.INT64 = 2 ∧
    obj_types.STR = 3 ∧ obj_types.DICT = 4 ∧ obj_types.ARRAY = 5 ∧
    obj_types.END = 255 ∧
    (∀ b, Object.to_obj_type (.Bool b) = some 0) ∧
    (∀ w, Object.to_obj_type (.Int32 w) = some 1) ∧
    (∀ w, Object.to_obj_type (.Int64 w) = some 2) ∧
    (∀ s, Object.to_obj_type (.String s) = some 3) ∧
    (∀ d, Object.to_obj_type (.Dictionary d) = some 4) ∧
    (∀ l, Object.to_obj_type (.Array l) = some 5) ∧
    (∀ f input, Object.parse (f + 1) obj_types.DICT input =
      Object.parseDictLoop f [] input) ∧
    (∀ f input, Object.parse (f + 1) obj_types.ARRAY input =
      Object.parseArrayLoop f [] input) ∧
    (∀ f input, Object.parse (f + 1) obj_types.END input = some (.ok none)) :=
  ⟨rfl, rfl, rfl, rfl, rfl, rfl, rfl, fun _ => rfl, fun _ => rfl, fun _ => rfl,
   fun _ => rfl, fun _ => rfl, fun _ => rfl, fun _ _ => rfl, fun _ _ => rfl,
   fun _ _ => rfl⟩

/-- C4 counterexample: encoding the empty Root does not produce the claimed
9 bytes (magic then the single end tag): the Root arm additionally appends
a 2-byte zero key-length after the end tag. -/
theorem c4_empty_root_counterexample :
    Object.into_bytes (.Root []) ≠ some (FORMULAE_MAGIC ++ [obj_types.END]) := by
  simp [Object.into_bytes, Object.encodeEntries, FORMULAE_MAGIC, obj_types.END, toLE]

/-- C4 (amended): encoding the empty Root yields exactly the 11 bytes
"formulae", the end tag 0xFF, and a 2-byte little-endian zero key-length. -/
theorem c4_empty_root_encoding :
    Object.into_bytes (.Root []) = some (FORMULAE_MAGIC ++ [obj_types.END, 0, 0]) := by
  simp [Object.into_bytes, Object.encodeEntries, FORMULAE_MAGIC, obj_types.END, toLE]

/-- C3: the claim is right and the code is wrong: `parse_root` checks only
`input.len() < 2` before `read_bytes::<8>(input).unwrap()`, so truncating
a valid buffer to any length in 2..=7 hits the unwrap panic (modelled as
`none`) instead of returning an UnexpectedEof or MissingEndMarker error.
Here the 11-byte encoding of the empty Root truncated to 3 bytes. -/
theorem c3_truncation_unwrap :
    Object.into_bytes (.Root []) =
      some [102, 111, 114, 109, 117, 108, 97, 101, 255, 0, 0] ∧
    ([102, 111, 114, 109, 117, 108, 97, 101, 255, 0, 0] : Bytes).take 3 =
      [102, 111, 114] ∧
    Object.parse_root [102, 111, 114] = none := by
  refine ⟨?_, rfl, rfl⟩
  simp [Object.into_bytes, Object.encodeEntries, FORMULAE_MAGIC, obj_types.END, toLE]

/-- C5 counterexample: flipping byte 0 of the valid empty-Root buffer to
0xFF makes the 8 magic bytes invalid UTF-8, and decoding then fails with
the `from_utf8` error of the magic check, not with "Invalid magic". -/
theorem c5_magic_counterexample :
    Object.into_bytes (.Root []) =
      some [102, 111, 114, 109, 117, 108, 97, 101, 255, 0, 0] ∧
    ([102, 111, 114, 109, 117, 108, 97, 101, 255, 0, 0] : Bytes).set 0 255 =
      [255, 111, 114, 109, 117, 108, 97, 101, 255, 0, 0] ∧
    Object.parse_root [255, 111, 114, 109, 117, 108, 97, 101, 255, 0, 0] =
      some (.error .magicUtf8) ∧
    PErr.magicUtf8 ≠ PErr.invalidMagic := by
  refine ⟨?_, rfl, rfl, by decide⟩
  simp [Object.into_bytes, Object.encodeEntries, FORMULAE_MAGIC, obj_types.END, toLE]

/-- C5 (amended): for any input of at least 8 bytes whose first 8 bytes
differ from the magic, decoding fails with "Invalid magic" when those 8
bytes are valid UTF-8 and with the `from_utf8` error on the magic bytes
otherwise; it never succeeds. -/
theorem c5_magic_mismatch (input : Bytes) (h8 : 8 ≤ input.length)
    (hm : input.take 8 ≠ FORMULAE_MAGIC) :
    (utf8Valid (input.take 8) = true →
      Object.parse_root input = some (.error .invalidMagic)) ∧
    (utf8Valid (input.take 8) = false →
      Object.parse_root input = some (.error .magicUtf8)) := by
  have hlen2 : ¬ input.length < 2 := by omega
  have h8r : read_bytes 8 input = some (input.take 8, input.drop 8) := by
    rw [read_bytes, if_neg (by omega)]
  constructor
  · intro hu
    rw [Object.parse_root, if_neg hlen2]
    simp only [h8r, hu, eq_self_iff_true, if_true]
    rw [if_neg hm]
  · intro hu
    rw [Object.parse_root, if_neg hlen2]
    simp only [h8r, hu, Bool.false_eq_true, if_false]

theorem c5_magic_mismatch_witness :
    8 ≤ ([103, 111, 114, 109, 117, 108, 97, 101, 255, 0, 0] : Bytes).length ∧
    ([103, 111, 114, 109, 117, 108, 97, 101, 255, 0, 0] : Bytes).take 8 ≠
      FORMULAE_MAGIC ∧
    utf8Valid (([103, 111, 114, 109, 117, 108, 97, 101, 255, 0, 0] : Bytes).take 8) =
      true ∧
    Object.parse_root [103, 111, 114, 109, 117, 108, 97, 101, 255, 0, 0] =
      some (.error .invalidMagic) :=
  ⟨by decide, by decide, by decide,
   (c5_magic_mismatch _ (by decide) (by decide)).1 (by decide)⟩

/-- C6 counterexample: a String payload declaring length 1 whose single
payload byte 0xFF is invalid UTF-8 fails with the same error constructor
`eofString` ("Data unexpectedly ended while parsing String object") that a
genuinely truncated String payload produces, so no distinct InvalidEncoding
error exists. -/
theorem c6_invalid_utf8_counterexample :
    Object.parse_root
      ([102, 111, 114, 109, 117, 108, 97, 101] ++
       [3, 1, 0, 115] ++ [1, 0, 0, 0, 0, 0, 0, 0, 255] ++ [255, 0, 0]) =
      some (.error .eofString) ∧
    Object.parse_root
      ([102, 111, 114, 109, 117, 108, 97, 101] ++
       [3, 1, 0, 115] ++ [2, 0, 0, 0, 0, 0, 0, 0, 97]) =
      some (.error .eofString) := ⟨rfl, rfl⟩

/-- C6 (amended): a String payload whose declared length matches and whose
bytes are valid UTF-8 decodes to exactly that string; invalid UTF-8 fails,
but with the same `eofString` error that a truncation produces (the source
merges both through `read_string` returning `None`), not with a distinct
InvalidEncoding error. -/
theorem c6_string_utf8 (s r : Bytes) (f : Nat)
    (hl : s.length < 18446744073709551616) :
    (utf8Valid s = true →
      Object.parse (f + 1) obj_types.STR (toLE 8 s.length ++ (s ++ r)) =
        some (.ok (some (.String s, r)))) ∧
    (utf8Valid s = false →
      Object.parse (f + 1) obj_types.STR (toLE 8 s.length ++ (s ++ r)) =
        some (.error .eofString)) := by
  constructor
  · intro hu
    rw [← List.append_assoc]
    exact parse_succ_string f r hu hl
  · intro hu
    have h := read_string_invalid r hu hl
    simp [Object.parse, h, obj_types.BOOL, obj_types.INT32, obj_types.INT64,
      obj_types.STR]

theorem c6_string_utf8_witness :
    ([255] : Bytes).length < 18446744073709551616 ∧
    utf8Valid [255] = false ∧
    Object.parse 1 obj_types.STR (toLE 8 ([255] : Bytes).length ++ ([255] ++ [])) =
      some (.error .eofString) ∧
    utf8Valid [104] = true ∧
    Object.parse 1 obj_types.STR (toLE 8 ([104] : Bytes).length ++ ([104] ++ [])) =
      some (.ok (some (.String [104], []))) :=
  ⟨by decide, by decide, (c6_string_utf8 [255] [] 0 (by decide)).2 (by decide),
   by decide, (c6_string_utf8 [104] [] 0 (by decide)).1 (by decide)⟩

/-- C2 counterexample: this buffer encodes a nested Dictionary under key
"d" containing the key "k" twice (value false, then true); decoding
succeeds with the later value instead of aborting with a duplicate-key
error, because the Dictionary arm uses plain `insert`. -/
theorem c2_duplicate_key_counterexample :
    Object.parse_root
      ([102, 111, 114, 109, 117, 108, 97, 101] ++
       [4, 1, 0, 100] ++ [0, 1, 0, 107, 0] ++ [0, 1, 0, 107, 1] ++
       [255, 0, 0] ++ [255, 0, 0]) =
      some (.ok (.Root [([100], .Dictionary [([107], .Bool true)])])) := rfl

/-- C2 (amended): only the Root mapping is filled with `try_insert`
(insert-if-absent): a repeated root key aborts with the duplicate-key
error, while the Dictionary arm of `Object.parse` uses plain `insert`, so
a repeated nested key silently overwrites the earlier value (the final
lookup returns the later object) and decoding continues. -/
theorem c2_duplicate_key (fuel : Nat) (data map : List (Bytes × Object))
    (tag : Nat) (rest rest2 rest3 key : Bytes) (obj : Object)
    (hk : read_key rest = some (key, rest2))
    (hp : Object.parse fuel tag rest2 = some (.ok (some (obj, rest3)))) :
    (hasKey data key = true →
      Object.parse_root_loop (fuel + 1) data (tag :: rest) =
        some (.error .duplicateKey)) ∧
    (Object.parseDictLoop (fuel + 1) map (tag :: rest) =
      Object.parseDictLoop fuel (mapInsert map key obj) rest3) ∧
    mapLookup (mapInsert map key obj) key = some obj := by
  refine ⟨?_, ?_, mapLookup_mapInsert map key obj⟩
  · intro hdup
    rw [Object.parse_root_loop]
    simp only [List.isEmpty_cons, Bool.false_eq_true, if_false, read_bytes_one, hk, hp]
    simp [tryInsert, hdup]
  · rw [Object.parseDictLoop]
    simp only [read_bytes_one, hk, hp]

theorem c2_duplicate_key_witness :
    read_key [1, 0, 107, 1] = some ([107], [1]) ∧
    Object.parse 5 0 [1] = some (.ok (some (.Bool true, []))) ∧
    hasKey [([107], Object.Bool false)] [107] = true ∧
    Object.parse_root_loop 6 [([107], Object.Bool false)] [0, 1, 0, 107, 1] =
      some (.error .duplicateKey) ∧
    Object.parseDictLoop 6 [([107], Object.Bool false)] [0, 1, 0, 107, 1] =
      Object.parseDictLoop 5 (mapInsert [([107], Object.Bool false)] [107]
        (Object.Bool true)) [] ∧
    mapLookup (mapInsert [([107], Object.Bool false)] [107] (Object.Bool true))
      [107] = some (Object.Bool true) := by
  have h := c2_duplicate_key 5 [([107], .Bool false)] [([107], .Bool false)] 0
    [1, 0, 107, 1] [1] [] [107] (.Bool true) rfl rfl
  exact ⟨rfl, rfl, rfl, h.1 rfl, h.2.1, h.2.2⟩

/-- C10: when the root loop reads a tag byte but the following key cannot
be read (missing length bytes, missing key bytes, or invalid UTF-8), the
decoder does not error: the tag byte is discarded and parsing resumes at
the next byte; consequently a buffer with a malformed entry between two
valid entries still decodes successfully. -/
theorem c10_root_skip :
    (∀ fuel data tag rest, read_key rest = none →
      Object.parse_root_loop (fuel + 1) data (tag :: rest) =
        Object.parse_root_loop fuel data rest) ∧
    Object.parse_root
      ([102, 111, 114, 109, 117, 108, 97, 101] ++
       [0, 1, 0, 97, 1] ++ [7, 255, 255] ++ [0, 1, 0, 98, 0] ++ [255, 0, 0]) =
      some (.ok (.Root [([97], .Bool true), ([98], .Bool false)])) := by
  refine ⟨?_, rfl⟩
  intro fuel data tag rest hk
  rw [Object.parse_root_loop]
  simp only [List.isEmpty_cons, Bool.false_eq_true, if_false, read_bytes_one, hk]

theorem c10_root_skip_witness :
    read_key ([255, 255, 255, 0, 0] : Bytes) = none ∧
    Object.parse_root_loop 11 [] (7 :: [255, 255, 255, 0, 0]) =
      Object.parse_root_loop 10 [] [255, 255, 255, 0, 0] :=
  ⟨rfl, c10_root_skip.1 10 [] 7 [255, 255, 255, 0, 0] rfl⟩

/-- C8 counterexample: `to_obj_type` reaches its `unreachable!()` arm on
`Root` (modelled as `none`) rather than returning a tag, and consequently
encoding a tree with a nested `Root` panics instead of producing bytes. -/
theorem c8_to_tag_counterexample :
    Object.to_obj_type (.Root []) = none ∧
    Object.into_bytes (.Array [.Root []]) = none := by
  refine ⟨rfl, ?_⟩
  simp [Object.into_bytes, Object.encodeItems, Object.to_obj_type]

/-- C8 (amended): `to_obj_type` is total on every non-Root value, and
`into_bytes` is total on every tree in which `Root` occurs only at the
top, if at all; on `Root` itself `to_obj_type` hits `unreachable!()`. -/
theorem c8_to_tag_total :
    (∀ v : Object, isRoot v = false → (Object.to_obj_type v).isSome = true) ∧
    (∀ v : Object, rootOnlyAtTop v = true → (Object.into_bytes v).isSome = true) := by
  constructor
  · intro v h
    cases v with
    | Root data => rw [isRoot] at h; cases h
    | Bool b => rfl
    | Int32 w => rfl
    | Int64 w => rfl
    | String s => rfl
    | Dictionary d => rfl
    | Array l => rfl
  · intro v h
    exact into_bytes_total (sizeOf v) v le_rfl h

theorem c8_to_tag_total_witness :
    isRoot (Object.Bool true) = false ∧
    (Object.to_obj_type (Object.Bool true)).isSome = true ∧
    rootOnlyAtTop (Object.Root [([107], Object.Bool true)]) = true ∧
    (Object.into_bytes (Object.Root [([107], Object.Bool true)])).isSome = true := by
  have h2 : rootOnlyAtTop (Object.Root [([107], Object.Bool true)]) = true := by
    simp [rootOnlyAtTop, rootFreeEntries, rootFree]
  exact ⟨rfl, c8_to_tag_total.1 _ rfl, h2, c8_to_tag_total.2 _ h2⟩

/-- C9: both keyed arms of the encoder (Root and Dictionary, which share
the per-entry layout of `encodeEntries`) write the 2-byte key-length field
as the key byte-length mod 2^16 while emitting every key byte, so for any
key of 65536 bytes or more the stored field disagrees with the number of
key bytes emitted. -/
theorem c9_key_length_mod :
    (∀ data, Object.into_bytes (.Root data) =
      (Object.encodeEntries data).map
        (fun e => FORMULAE_MAGIC ++ e ++ obj_types.END :: toLE 2 0)) ∧
    (∀ data, Object.into_bytes (.Dictionary data) =
      (Object.encodeEntries data).map (fun e => e ++ obj_types.END :: toLE 2 0)) ∧
    (∀ (k : Bytes) (o : Object) tl t pb r, Object.to_obj_type o = some t →
      Object.into_bytes o = some pb → Object.encodeEntries tl = some r →
      Object.encodeEntries ((k, o) :: tl) =
        some (t :: (toLE 2 (k.length % 65536) ++ (k ++ (pb ++ r))))) ∧
    (∀ k : Bytes, 65536 ≤ k.length →
      fromLE (toLE 2 (k.length % 65536)) ≠ k.length) := by
  refine ⟨fun data => ?_, fun data => ?_,
    fun k o tl t pb r ht hpb hr => ?_, fun k hk => ?_⟩
  · rw [Object.into_bytes]
  · rw [Object.into_bytes]
  · rw [Object.encodeEntries, ht, hpb, hr]
    simp [List.append_assoc]
  · rw [fromLE_toLE]
    have h1 : k.length % 65536 < 65536 := Nat.mod_lt _ (by norm_num)
    have h2 : k.length % 65536 % 256 ^ 2 = k.length % 65536 := by
      norm_num
    rw [h2]
    omega

theorem c9_key_length_mod_witness :
    Object.encodeEntries [(([107] : Bytes), Object.Bool true)] =
      some (0 :: (toLE 2 (([107] : Bytes).length % 65536) ++
        ([107] ++ ([1] ++ [])))) ∧
    65536 ≤ (List.replicate 65536 97 : Bytes).length ∧
    fromLE (toLE 2 ((List.replicate 65536 97 : Bytes).length % 65536)) ≠
      (List.replicate 65536 97 : Bytes).length :=
  ⟨c9_key_length_mod.2.2.1 [107] (.Bool true) [] 0 [1] [] rfl
     (by simp [Object.into_bytes]) rfl,
   by rw [List.length_replicate], c9_key_length_mod.2.2.2 _ (by rw [List.length_replicate])⟩

/-- C1 counterexample: for Root with entries "a" ↦ Array [] and
"b" ↦ Bool true, the encoder writes a 2-byte zero key-length after the
array end tag that the array decoder never consumes, so decoding the
encoding succeeds but yields a different tree: the two stray bytes
swallow the following entry header and its key becomes the empty string.
This refutes the round trip as claimed for all trees, even up to mapping
order. -/
theorem c1_round_trip_counterexample :
    Object.into_bytes (.Root [([97], .Array []), ([98], .Bool true)]) =
      some ([102, 111, 114, 109, 117, 108, 97, 101] ++
        [5, 1, 0, 97, 255, 0, 0] ++ [0, 1, 0, 98, 1] ++ [255, 0, 0]) ∧
    Object.parse_root
      ([102, 111, 114, 109, 117, 108, 97, 101] ++
       [5, 1, 0, 97, 255, 0, 0] ++ [0, 1, 0, 98, 1] ++ [255, 0, 0]) =
      some (.ok (.Root [([97], .Array []), ([], .Bool true)])) ∧
    Object.Root [([97], .Array []), ([], .Bool true)] ≠
      Object.Root [([97], .Array []), ([98], .Bool true)] := by
  refine ⟨?_, rfl, ?_⟩
  · simp [Object.into_bytes, Object.encodeEntries, Object.encodeItems,
      Object.to_obj_type, FORMULAE_MAGIC, obj_types.END, obj_types.ARRAY,
      obj_types.BOOL, toLE]
  · simp

/-- C1 (amended): decoding inverts encoding for every Root tree whose
mappings have unique keys, whose keys are valid UTF-8 and shorter than
2^16 bytes, whose strings are valid UTF-8 with u64 lengths, whose scalars
are in range, with Root only at the top and no Array anywhere (the
counterexample forces the Array exclusion, and the u16 key-length field
forces the key bound); separately, the concrete nested scenario
Root with "arr" ↦ Array [String "a", Int64 1] does round-trip exactly,
end tag desynchronisation notwithstanding, because the root loop
resynchronises over the stray bytes. -/
theorem c1_round_trip :
    (∀ (data : List (Bytes × Object)) (B : Bytes), rootWF data = true →
      arrFreeEntries data = true → Object.into_bytes (.Root data) = some B →
      Object.parse_root B = some (.ok (.Root data))) ∧
    (Object.into_bytes (.Root [([97, 114, 114], .Array [.String [97], .Int64 1])]) =
      some ([102, 111, 114, 109, 117, 108, 97, 101] ++
        [5, 3, 0, 97, 114, 114] ++ [3, 1, 0, 0, 0, 0, 0, 0, 0, 97] ++
        [2, 1, 0, 0, 0, 0, 0, 0, 0] ++ [255, 0, 0] ++ [255, 0, 0]) ∧
     Object.parse_root
       ([102, 111, 114, 109, 117, 108, 97, 101] ++
        [5, 3, 0, 97, 114, 114] ++ [3, 1, 0, 0, 0, 0, 0, 0, 0, 97] ++
        [2, 1, 0, 0, 0, 0, 0, 0, 0] ++ [255, 0, 0] ++ [255, 0, 0]) =
       some (.ok (.Root [([97, 114, 114], .Array [.String [97], .Int64 1])]))) := by
  refine ⟨fun data B hwf harr hB => parse_root_into_bytes hwf harr hB, ?_, rfl⟩
  simp [Object.into_bytes, Object.encodeEntries, Object.encodeItems,
    Object.to_obj_type, FORMULAE_MAGIC, obj_types.END, obj_types.ARRAY,
    obj_types.STR, obj_types.INT64, toLE]

theorem c1_round_trip_witness :
    rootWF [(([67, 111, 111, 108] : Bytes), Object.Bool true),
      ([110], Object.Int64 11259375),
      ([115], Object.String [104, 101, 108, 108, 111])] = true ∧
    arrFreeEntries [(([67, 111, 111, 108] : Bytes), Object.Bool true),
      ([110], Object.Int64 11259375),
      ([115], Object.String [104, 101, 108, 108, 111])] = true ∧
    Object.into_bytes (.Root [(([67, 111, 111, 108] : Bytes), Object.Bool true),
      ([110], Object.Int64 11259375),
      ([115], Object.String [104, 101, 108, 108, 111])]) =
      some ([102, 111, 114, 109, 117, 108, 97, 101] ++
        [0, 4, 0, 67, 111, 111, 108, 1] ++
        [2, 1, 0, 110, 239, 205, 171, 0, 0, 0, 0, 0] ++
        [3, 1, 0, 115, 5, 0, 0, 0, 0, 0, 0, 0, 104, 101, 108, 108, 111] ++
        [255, 0, 0]) ∧
    Object.parse_root
      ([102, 111, 114, 109, 117, 108, 97, 101] ++
       [0, 4, 0, 67, 111, 111, 108, 1] ++
       [2, 1, 0, 110, 239, 205, 171, 0, 0, 0, 0, 0] ++
       [3, 1, 0, 115, 5, 0, 0, 0, 0, 0, 0, 0, 104, 101, 108, 108, 111] ++
       [255, 0, 0]) =
      some (.ok (.Root [(([67, 111, 111, 108] : Bytes), Object.Bool true),
        ([110], Object.Int64 11259375),
        ([115], Object.String [104, 101, 108, 108, 111])])) := by
  have hwf : rootWF [(([67, 111, 111, 108] : Bytes), Object.Bool true),
      ([110], Object.Int64 11259375),
      ([115], Object.String [104, 101, 108, 108, 111])] = true := by
    simp [rootWF, wfEntries, wfV]
    decide
  have harr : arrFreeEntries [(([67, 111, 111, 108] : Bytes), Object.Bool true),
      ([110], Object.Int64 11259375),
      ([115], Object.String [104, 101, 108, 108, 111])] = true := by
    simp [arrFreeEntries, arrFree]
  have henc : Object.into_bytes (.Root [(([67, 111, 111, 108] : Bytes), Object.Bool true),
      ([110], Object.Int64 11259375),
      ([115], Object.String [104, 101, 108, 108, 111])]) =
      some ([102, 111, 114, 109, 117, 108, 97, 101] ++
        [0, 4, 0, 67, 111, 111, 108, 1] ++
        [2, 1, 0, 110, 239, 205, 171, 0, 0, 0, 0, 0] ++
        [3, 1, 0, 115, 5, 0, 0, 0, 0, 0, 0, 0, 104, 101, 108, 108, 111] ++
        [255, 0, 0]) := by
    simp [Object.into_bytes, Object.encodeEntries, Object.to_obj_type,
      FORMULAE_MAGIC, obj_types.END, obj_types.BOOL, obj_types.INT64,
      obj_types.STR, toLE]
  exact ⟨hwf, harr, henc, c1_round_trip.1 _ _ hwf harr henc⟩
